import Mathlib

/-!
Verification of the gocker container engine (repository z1z0v1c/gclone).

The development shallowly embeds the pull and run paths of the engine:

* `internal/gocker/image/client.go` — registry client: authentication,
  manifest resolution (including manifest indices), per-layer streaming
  download/extraction with digest verification, tar extraction into the
  image rootfs, config persistence, and the store-reset step.
* `internal/gocker/container/container.go` — two-phase runner: parent
  (cgroup setup, re-exec of self into fresh namespaces, wait) and child
  (namespace/filesystem setup, spawning the target command).
* `internal/gocker/cmd/{pull,run}.go` — the drivers, including exit-code
  propagation.
* `pkg/http/client.go` — the HTTP helper whose error results the client
  sometimes discards.

Go's `path/filepath` functions (`Join`, `Clean`, `Dir`) and
`strings.HasPrefix` are modelled on `List Char`; the filesystem touched by
tar extraction is modelled as an association list from cleaned path
strings to nodes.
-/

namespace Gclone

/-! ## Model of Go `path/filepath` (slash-separated, as on Linux) -/

/-- Prepend a character to the first group of a component list
(helper for `splitSlash`). -/
def consHead (c : Char) : List (List Char) → List (List Char)
  | [] => [[c]]
  | g :: gs => (c :: g) :: gs

/-- Split a character list on `'/'` into components. Empty components are
kept (they are produced by duplicate or trailing slashes). -/
def splitSlash : List Char → List (List Char)
  | [] => [[]]
  | c :: cs => if c = '/' then [] :: splitSlash cs else consHead c (splitSlash cs)

/-- The component-processing loop of Go `filepath.Clean`: drop empty and
`"."` components, resolve `".."` against the output stack (popping a
previous component, keeping leading `".."`s of a relative path, and
dropping `".."` at the root of a rooted path). The first argument is the
output stack (in reverse order). -/
def cleanComps (rooted : Bool) : List (List Char) → List (List Char) → List (List Char)
  | out, [] => out.reverse
  | out, g :: gs =>
    if g = [] ∨ g = ['.'] then cleanComps rooted out gs
    else if g = ['.', '.'] then
      match out with
      | [] => if rooted then cleanComps rooted [] gs else cleanComps rooted [['.', '.']] gs
      | h :: t =>
        if h = ['.', '.'] then cleanComps rooted (g :: h :: t) gs
        else cleanComps rooted t gs
    else cleanComps rooted (g :: out) gs

/-- Whether a path begins with `'/'`. -/
def isRooted (cs : List Char) : Bool :=
  match cs with
  | c :: _ => c = '/'
  | [] => false

/-- Go `filepath.Clean` on a character list. -/
def cleanChars (cs : List Char) : List Char :=
  if cs = [] then ['.']
  else
    let rooted := isRooted cs
    let body := List.intercalate ['/'] (cleanComps rooted [] (splitSlash cs))
    if body = [] then (if rooted then ['/'] else ['.'])
    else if rooted then '/' :: body else body

/-- Join a list of path elements with `'/'` separators (no cleaning yet),
the character-level counterpart of `strings.Join(elems, "/")`. -/
def joinCharsWithSlash : List String → List Char
  | [] => []
  | [s] => s.toList
  | s :: rest => s.toList ++ '/' :: joinCharsWithSlash rest

/-- Go `filepath.Join`: skip leading empty elements, join the rest with
slashes and `Clean` the result; all elements empty gives `""`. -/
def goJoin (elems : List String) : String :=
  let rest := elems.dropWhile (fun s => s.isEmpty)
  if rest.isEmpty then "" else (cleanChars (joinCharsWithSlash rest)).asString

/-- Go `strings.HasPrefix s pre` (note the argument order: the string
first, the candidate prefix second, as at the Go call sites). -/
def stringsHasPref (s pre : String) : Bool :=
  pre.toList.isPrefixOf s.toList

/-! ## Image-store paths (`image/client.go` `NewClient`,
`container/container.go` `NewContainer`) -/

/-- `RelativeImagesPath` from `image/client.go`. -/
def RelativeImagesPath : String := ".local/share/gocker/images/"

/-- `imgPath := filepath.Join(homeDir, RelativeImagesPath, imgName)`. -/
def clientImagePath (home imgName : String) : String :=
  goJoin [home, RelativeImagesPath, imgName]

/-- `imgRoot := filepath.Join(imgPath, "rootfs")`. -/
def clientImageRoot (home imgName : String) : String :=
  goJoin [clientImagePath home imgName, "rootfs"]

/-- `cfgPath := filepath.Join(imgPath, ".config.json")`. -/
def clientConfigPath (home imgName : String) : String :=
  goJoin [clientImagePath home imgName, ".config.json"]

/-- `NewContainer`: `imgRoot := filepath.Join(os.Getenv("HOME"),
image.RelativeImagesPath, imgName, "rootfs")`. -/
def containerImgRoot (home imgName : String) : String :=
  goJoin [home, RelativeImagesPath, imgName, "rootfs"]

/-- `targetPath := filepath.Join(imgRoot, header.Name)` in `extractLayer`. -/
def extractTargetPath (imgRoot name : String) : String :=
  goJoin [imgRoot, name]

/-- The traversal check of `extractLayer`: the entry is skipped exactly
when `!strings.HasPrefix(targetPath, imgRoot)`. -/
def extractSkips (imgRoot name : String) : Bool :=
  !(stringsHasPref (extractTargetPath imgRoot name) imgRoot)

/-- Modelled from the spec words: a normalized path lies under a directory
when it is the directory itself or extends it past a path separator
("does not lie under the rootfs directory"). Used only to state what the
spec demands, to be compared with the source's string-prefix check. -/
def specLiesUnder (p dir : String) : Bool :=
  p == dir || stringsHasPref p (dir ++ "/")

/-- The image-name shape assumed throughout: a nonempty name containing no
path separator and distinct from the special components. -/
def simpleImageName (img : String) : Bool :=
  decide (img.toList ≠ [] ∧ '/' ∉ img.toList ∧ img.toList ≠ ['.'] ∧ img.toList ≠ ['.', '.'])

/-! ## Filesystem model for `extractLayer` -/

/-- A node of the modelled filesystem. File contents are byte lists;
modes are the Unix permission bits actually stored. -/
inductive FsNode
  | dir (mode : Nat)
  | file (content : List Nat) (mode : Nat)
  | symlink (target : String)
deriving DecidableEq, Repr

/-- The filesystem: an association list from cleaned path strings to
nodes (first binding wins). -/
abbrev Fs := List (String × FsNode)

def fsFind (fs : Fs) (p : String) : Option FsNode :=
  match fs with
  | [] => none
  | (q, n) :: rest => if q = p then some n else fsFind rest p

def fsSet (fs : Fs) (p : String) (n : FsNode) : Fs :=
  match fs with
  | [] => [(p, n)]
  | (q, m) :: rest => if q = p then (p, n) :: rest else (q, m) :: fsSet rest p n

/-- Errors produced by the filesystem operations inside `extractLayer`
(the function's return value — which `downloadAndExtractLayer` discards). -/
inductive TarErr
  | headerFailure
  | mkdirFailure (path : String)
  | openFailure (path : String)
  | linkFailure (path : String)
deriving DecidableEq, Repr

/-- Effective permission bits of a file or directory created with the
given requested mode under the given process umask: the kernel keeps the
low nine bits of the request and clears the umask bits (`os.FileMode` of
a raw tar mode carries no setuid/setgid/sticky flags into `open`). -/
def permApplyUmask (m umask : Nat) : Nat :=
  (m &&& 0o777) &&& (0o777 ^^^ (umask &&& 0o777))

/-- Render a component list back to the characters of a path. -/
def renderComps (comps : List (List Char)) : List Char :=
  List.intercalate ['/'] comps

/-- Component prefixes that denote the filesystem root, the current
directory or the empty path: these always exist and are never created. -/
def alwaysThere (pcs : List Char) : Prop :=
  pcs = [] ∨ pcs = ['.'] ∨ pcs = ['/']

instance (pcs : List Char) : Decidable (alwaysThere pcs) := by
  unfold alwaysThere; infer_instance

/-- `os.MkdirAll`: walk the successive component prefixes of the target
path, creating each missing directory with the requested permissions
(modulo umask); an existing directory is left alone and an existing
non-directory node fails the call. `done` holds the components already
walked, `writes` accumulates created paths in reverse. Returns the
filesystem, the created paths, and the error if any. -/
def mkdirAllWalk (umask perm : Nat) :
    List (List Char) → Fs → List String → List (List Char) →
      Fs × List String × Option TarErr
  | _done, fs, writes, [] => (fs, writes.reverse, none)
  | done, fs, writes, c :: cs =>
    let pcs := renderComps (done ++ [c])
    let p := pcs.asString
    if alwaysThere pcs then
      mkdirAllWalk umask perm (done ++ [c]) fs writes cs
    else
      match fsFind fs p with
      | some (.dir _) => mkdirAllWalk umask perm (done ++ [c]) fs writes cs
      | some _ => (fs, writes.reverse, some (.mkdirFailure p))
      | none =>
          mkdirAllWalk umask perm (done ++ [c])
            (fsSet fs p (.dir (permApplyUmask perm umask))) (p :: writes) cs

/-- A tar entry: `Name`, `Typeflag`, `Mode`, `Linkname` and the body
bytes. Type flags as in `archive/tar`: `'0'` regular, `'1'` hard link,
`'2'` symlink, `'5'` directory. -/
structure TarEntry where
  name : String
  typeflag : Char
  mode : Nat
  linkname : String
  content : List Nat
deriving DecidableEq, Repr

/-- One iteration of the `extractLayer` loop on a successfully read
header. Mirrors `client.go`: compute the joined target path, skip the
entry when the `strings.HasPrefix` traversal check fails, then switch on
the type flag. Regular files are opened `O_CREATE|O_RDWR` (no truncate):
an existing file keeps its permission bits and any old content past the
new length; symlink and hard-link creation ignores an existing target
(`os.IsExist`), and a hard link whose source is missing fails. Returns
the filesystem, the list of paths written, and the error if any. -/
def extractEntry (umask : Nat) (imgRoot : String) (fs : Fs) (e : TarEntry) :
    Fs × List String × Option TarErr :=
  let target := extractTargetPath imgRoot e.name
  if extractSkips imgRoot e.name then (fs, [], none)
  else if e.typeflag = '5' then
    mkdirAllWalk umask e.mode [] fs [] (splitSlash target.toList)
  else if e.typeflag = '0' then
    match mkdirAllWalk umask 0o755 [] fs [] ((splitSlash target.toList).dropLast) with
    | (fs1, w1, some err) => (fs1, w1, some err)
    | (fs1, w1, none) =>
      match fsFind fs1 target with
      | some (.file oldContent oldMode) =>
          (fsSet fs1 target (.file (e.content ++ oldContent.drop e.content.length) oldMode),
            w1 ++ [target], none)
      | none =>
          (fsSet fs1 target (.file e.content (permApplyUmask e.mode umask)),
            w1 ++ [target], none)
      | some _ => (fs1, w1, some (.openFailure target))
  else if e.typeflag = '2' then
    match fsFind fs target with
    | some _ => (fs, [], none)
    | none => (fsSet fs target (.symlink e.linkname), [target], none)
  else if e.typeflag = '1' then
    match fsFind fs (extractTargetPath imgRoot e.linkname) with
    | some n =>
        match fsFind fs target with
        | some _ => (fs, [], none)
        | none => (fsSet fs target n, [target], none)
    | none =>
        match fsFind fs target with
        | some _ => (fs, [], none)
        | none => (fs, [], some (.linkFailure target))
  else (fs, [], none)

/-- The `extractLayer` loop over the decoded tar entries, stopping at the
first failing entry and accumulating every path written. -/
def extractLayer (umask : Nat) (imgRoot : String) (fs : Fs) :
    List TarEntry → Fs × List String × Option TarErr
  | [] => (fs, [], none)
  | e :: rest =>
    match extractEntry umask imgRoot fs e with
    | (fs1, w1, some err) => (fs1, w1, some err)
    | (fs1, w1, none) =>
      match extractLayer umask imgRoot fs1 rest with
      | (fs2, w2, r) => (fs2, w1 ++ w2, r)

/-! ## Model of the registry client (`image/client.go`) and HTTP helper
(`pkg/http/client.go`) -/

/-- Error kinds a pull can report. -/
inductive PullErr
  | network
  | httpStatus (code : Nat)
  | decodeFailure
  | noMatchingPlatform
  | gzipFailure
  | digestMismatch
  | fsFailure
deriving DecidableEq, Repr

/-- Outcome of `Client.SendRequest`: the response, a transport failure,
or a non-200 status (both reported as errors by the helper). -/
inductive ReqOutcome (α : Type)
  | ok (val : α)
  | netFailure
  | badStatus (code : Nat)
deriving DecidableEq

/-- Outcome of `Client.SendRequestAndDecode`: as `SendRequest`, plus a
JSON decode failure. -/
inductive DecOutcome (α : Type)
  | ok (val : α)
  | netFailure
  | badStatus (code : Nat)
  | decodeFailure
deriving DecidableEq

/-- `SendRequestAndDecode` returns an error for a transport failure, a
non-200 status, or a JSON decode failure, and the decoded value
otherwise. -/
def sendRequestAndDecode {α : Type} (r : DecOutcome α) : Except PullErr α :=
  match r with
  | .ok v => .ok v
  | .netFailure => .error .network
  | .badStatus c => .error (.httpStatus c)
  | .decodeFailure => .error .decodeFailure

/-- `registry.AuthResponse`. -/
structure AuthResponse where
  token : String
deriving DecidableEq, Repr

/-- `authenticate` (client.go 107-114): the return value of
`SendRequestAndDecode` is discarded at the call site, so on failure the
zero-valued response leaves the token empty and the method still returns
nil. -/
def authenticate (resp : DecOutcome AuthResponse) : Except PullErr String :=
  .ok (match sendRequestAndDecode resp with
       | .ok r => r.token
       | .error _ => "")

/-- A `registry.Manifest` descriptor (`mediaType`, `size`, `digest`). -/
structure Descriptor where
  mediaType : String
  size : Nat
  digest : String
deriving DecidableEq, Repr

/-- `registry.Manifest` (v2 schema): config descriptor and ordered layer
descriptors. -/
structure Manifest where
  config : Descriptor
  layers : List Descriptor
deriving DecidableEq, Repr

/-- `registry.ManifestIndex` entry platform. -/
structure PlatformDesc where
  os : String
  architecture : String
deriving DecidableEq, Repr

/-- One entry of a `registry.ManifestIndex`. -/
structure IndexEntry where
  digest : String
  platform : PlatformDesc
deriving DecidableEq, Repr

/-- `registry.ManifestIndex`. -/
structure ManifestIndex where
  manifests : List IndexEntry
deriving DecidableEq, Repr

/-- The manifest endpoint's response, modelled by its Content-Type and by
what its body decodes to under each of the two decoders `fetchManifest`
may apply. -/
structure ManifestBody where
  ctype : String
  decodeAsIndex : Option ManifestIndex
  decodeAsManifest : Option Manifest
deriving DecidableEq, Repr

/-- The two index Content-Types recognized by `fetchManifest`. -/
def indexContentTypes : List String :=
  ["application/vnd.oci.image.index.v1+json",
   "application/vnd.docker.distribution.manifest.list.v2+json"]

/-- The zero `registry.Manifest{}` allocated before decoding. -/
def emptyManifest : Manifest := ⟨⟨"", 0, ""⟩, []⟩

/-- `fetchManifestByDigest` (client.go 162-171): issues the manifest
request for the digest, but discards `SendRequestAndDecode`'s return
value and always returns nil; on failure the previously allocated zero
manifest remains. Returns the outcome and the digest requested. -/
def fetchManifestByDigest (byDigest : String → DecOutcome Manifest) (digest : String) :
    Except PullErr Manifest × List String :=
  (.ok (match sendRequestAndDecode (byDigest digest) with
        | .ok m => m
        | .error _ => emptyManifest), [digest])

/-- `fetchManifest` (client.go 117-159): request the manifest for the
tag; on an index Content-Type decode an index and follow the first entry
matching the host platform by digest (no match is an error); otherwise
decode the body as a manifest. Returns the outcome and the manifest
references requested in order. -/
def fetchManifest (tag : String) (resp : ReqOutcome ManifestBody) (hostOS hostArch : String)
    (byDigest : String → DecOutcome Manifest) : Except PullErr Manifest × List String :=
  match resp with
  | .netFailure => (.error .network, [tag])
  | .badStatus c => (.error (.httpStatus c), [tag])
  | .ok body =>
    if body.ctype ∈ indexContentTypes then
      match body.decodeAsIndex with
      | none => (.error .decodeFailure, [tag])
      | some idx =>
        match idx.manifests.find? (fun m =>
            m.platform.os == hostOS && m.platform.architecture == hostArch) with
        | some entry =>
            let r := fetchManifestByDigest byDigest entry.digest
            (r.1, tag :: r.2)
        | none => (.error .noMatchingPlatform, [tag])
    else
      match body.decodeAsManifest with
      | none => (.error .decodeFailure, [tag])
      | some m => (.ok m, [tag])

/-- The environment `downloadAndExtractLayer` runs against for one blob:
the blob request outcome, whether `gzip.NewReader` accepts the stream,
the result `extractLayer` returns for the tar entries, and whether the
SHA-256 of the received bytes matches the advertised digest. -/
structure LayerFetch where
  blob : ReqOutcome Unit
  gzipOk : Bool
  extractResult : Option TarErr
  digestMatches : Bool
deriving DecidableEq

/-- `downloadAndExtractLayer` (client.go 187-219): request the blob,
create the gzip reader over the hashing tee, run `extractLayer` on the
tar stream — its return value is discarded at the call site (line
210) — and finally compare the digest of the bytes read. -/
def downloadAndExtractLayer (lf : LayerFetch) : Except PullErr Unit :=
  match lf.blob with
  | .netFailure => .error .network
  | .badStatus c => .error (.httpStatus c)
  | .ok _ =>
    if lf.gzipOk then
      if lf.digestMatches then .ok () else .error .digestMismatch
    else .error .gzipFailure

/-- `downloadAndExtractImage` (client.go 174-184): a serial loop over the
manifest layers in order, stopping at the first error. -/
def downloadAndExtractImage (fetch : String → LayerFetch) :
    List Descriptor → Except PullErr Unit
  | [] => .ok ()
  | d :: rest =>
    match downloadAndExtractLayer (fetch d.digest) with
    | .error e => .error e
    | .ok _ => downloadAndExtractImage fetch rest

/-- The runtime-relevant part of `registry.ImageConfig`'s inner config. -/
structure ConfigPayload where
  env : List String
  workingDir : String
  hostname : String
deriving DecidableEq, Repr

/-- `registry.ImageConfig`. -/
structure ImageConfig where
  config : ConfigPayload
deriving DecidableEq, Repr

/-- The zero `registry.ImageConfig{}`. -/
def emptyImageConfig : ImageConfig := ⟨⟨[], "", ""⟩⟩

/-- Filesystem operations `Pull` performs on the image store (tar
extraction inside rootfs is modelled separately by `extractLayer`). -/
inductive FsOp
  | removeAll (path : String)
  | mkdirAll (path : String) (mode : Nat)
  | writeFile (path : String)
deriving DecidableEq, Repr

/-- `mkdirRootfs` (client.go 312-322): recursively remove the image
directory, then create the rootfs directory with mode 0755. -/
def mkdirRootfs (imagePath imageRoot : String) : Except PullErr Unit × List FsOp :=
  (.ok (), [.removeAll imagePath, .mkdirAll imageRoot 0o755])

/-- `fetchConfig` (client.go 287-309): the `SendRequestAndDecode` return
value is discarded (a zero config remains on failure); the config is then
marshalled and written to `.config.json` with mode 0644; only the write
can fail. -/
def fetchConfig (_resp : DecOutcome ImageConfig) (writeOk : Bool) (configPath : String) :
    Except PullErr Unit × List FsOp :=
  if writeOk then (.ok (), [.writeFile configPath]) else (.error .fsFailure, [])

/-- The external world one `Pull` call runs against. -/
structure PullEnv where
  authResp : DecOutcome AuthResponse
  manifestResp : ReqOutcome ManifestBody
  hostOS : String
  hostArch : String
  byDigest : String → DecOutcome Manifest
  layerFetch : String → LayerFetch
  configResp : DecOutcome ImageConfig
  configWriteOk : Bool

/-- `Pull` (client.go 77-104): authenticate, resolve the manifest, reset
the store directory, download and extract the layers serially, then fetch
and persist the config — stopping at the first error. Returns the
outcome and the image-store filesystem operations performed. -/
def pull (env : PullEnv) (home imgName : String) : Except PullErr Unit × List FsOp :=
  match authenticate env.authResp with
  | .error e => (.error e, [])
  | .ok _token =>
    match (fetchManifest "latest" env.manifestResp env.hostOS env.hostArch env.byDigest).1 with
    | .error e => (.error e, [])
    | .ok manifest =>
      match mkdirRootfs (clientImagePath home imgName) (clientImageRoot home imgName) with
      | (.error e, ops) => (.error e, ops)
      | (.ok _, ops1) =>
        match downloadAndExtractImage env.layerFetch manifest.layers with
        | .error e => (.error e, ops1)
        | .ok _ =>
          match fetchConfig env.configResp env.configWriteOk
              (clientConfigPath home imgName) with
          | (r, ops2) => (r, ops1 ++ ops2)

/-! ## Event-trace model of the download/extraction loop (claim C1) -/

/-- Observable events while processing layer `j`. -/
inductive LayerEv
  | request (j : Nat)
  | extractEntries (j : Nat)
  | bodyReceived (j : Nat)
  | verifyDigest (j : Nat)
deriving DecidableEq, Repr

/-- Event order of `downloadAndExtractLayer` for layer `j`: the blob
request is issued, the gzip/tar pipeline extracts entries while the
`TeeReader` is still consuming the response body, the body is fully
received only when the tar stream has been drained, and `hasher.Sum` is
compared against the advertised digest last. -/
def downloadAndExtractLayerTrace (j : Nat) : List LayerEv :=
  [.request j, .extractEntries j, .bodyReceived j, .verifyDigest j]

/-- `downloadAndExtractImage` processes the `n` manifest layers serially
in manifest order. -/
def downloadAndExtractImageTrace : Nat → List LayerEv
  | 0 => []
  | n + 1 => downloadAndExtractImageTrace n ++ downloadAndExtractLayerTrace n

/-! ## Model of the runner (`container/container.go`, `cmd/run.go`) -/

/-- `exec.Cmd.Run` results as classified by the `run` handler: an
`ExitError` carrying the child's exit code, or any other error. -/
inductive RunErr
  | exitError (code : Nat)
  | otherError
deriving DecidableEq, Repr

/-- `exec.Cmd.Run`: nil when the spawned process exits 0, an `ExitError`
carrying the exit code otherwise. -/
def cmdRunResult (exitCode : Nat) : Option RunErr :=
  if exitCode = 0 then none else some (.exitError exitCode)

/-- The `run` handler (cmd/run.go 22-42): an `ExitError` makes the
process exit with the child's exit code, any other error exits 1, and no
error falls through to a normal exit 0. -/
def runHandlerExit (r : Option RunErr) : Nat :=
  match r with
  | none => 0
  | some (.exitError k) => k
  | some .otherError => 1

/-- Exit code of the re-executed child gocker process when the target
command exits with code `k`: `runChildProcess` returns `cmd.Run()`'s
result, which the handler propagates. -/
def childProcessExit (k : Nat) : Nat :=
  runHandlerExit (cmdRunResult k)

/-- `runParentProcess` (container.go 72-98): `setupCgroup()`'s return
value is discarded at the call site (line 73); the function returns
`cmd.Run()`'s result for the re-executed child. -/
def runParentProcess (cgroupResult : Option String) (childRun : Option RunErr) :
    Option RunErr :=
  match cgroupResult with
  | _ => childRun

/-- Exit code of `gocker run` when the containerized target exits with
code `k`: the parent waits for the child re-exec and the handler
propagates the `ExitError` code. -/
def gockerRunExit (cgroupResult : Option String) (k : Nat) : Nat :=
  runHandlerExit (runParentProcess cgroupResult (cmdRunResult (childProcessExit k)))

/-- Events of the child phase (`runChildProcess`, container.go 102-126,
with `setupNamespaces`, `setupFilesystem`, `mountProc`, `unmountProc`).
`spawnTarget`/`waitTarget` are `exec.Command` + `cmd.Run` on the target;
`execReplace` would be an `exec`-style replacement of the process image,
which the source never performs. -/
inductive ChildEv
  | unshareMount
  | makeMountsPrivate
  | setHostname
  | chdirImgRoot
  | chrootDot
  | chdirRoot
  | chdirWorkdir
  | mkdirProc
  | mountProc
  | spawnTarget
  | waitTarget
  | unmountProc
  | execReplace
deriving DecidableEq, Repr

/-- The success-path event order of `runChildProcess`: namespace setup,
filesystem pivot, proc mount, then spawning and waiting on the target as
a subprocess, and finally the deferred `unmountProc` — runner code that
runs after the target has exited. -/
def runChildTrace : List ChildEv :=
  [.unshareMount, .makeMountsPrivate, .setHostname, .chdirImgRoot, .chrootDot, .chdirRoot,
   .chdirWorkdir, .mkdirProc, .mountProc, .spawnTarget, .waitTarget, .unmountProc]

/-- `t` extends `q` past a path separator (`q` is a slash-ancestor of
`t`). -/
def SlashAnc (q t : List Char) : Prop :=
  ∃ rest, t = q ++ '/' :: rest

/-- `p` equals `t` or is a slash-ancestor of `t`. -/
def prefOrSelf (p t : List Char) : Prop :=
  p = t ∨ SlashAnc p t

/-- The prefix path either trivially exists or is present in the
filesystem as a directory. -/
def ancestorOk (fs : Fs) (pcs : List Char) : Bool :=
  decide (alwaysThere pcs) ||
    (match fsFind fs pcs.asString with
     | some (.dir _) => true
     | _ => false)

/-- Every slash-ancestor of the path `P` exists in the filesystem (as a
directory, unless it denotes the root or the current directory). This is
the state `mkdirRootfs` guarantees for the rootfs path before extraction
starts. -/
def AncInv (P : List Char) (fs : Fs) : Prop :=
  ∀ n, n < P.length → P[n]? = some '/' → ancestorOk fs (P.take n) = true

instance (P : List Char) (fs : Fs) : Decidable (AncInv P fs) := by
  unfold AncInv; infer_instance

/-! ## Path lemmas and claim C10 — image store paths when HOME is empty -/

theorem splitSlash_ne_nil (cs : List Char) : splitSlash cs ≠ [] := by
  induction cs with
  | nil => simp [splitSlash]
  | cons c cs ih =>
    by_cases hc : c = '/'
    · simp [splitSlash, hc]
    · rw [splitSlash, if_neg hc]
      cases hsp : splitSlash cs with
      | nil => exact absurd hsp ih
      | cons g gs => simp [consHead]

theorem renderComps_cons (g : List Char) (gs : List (List Char)) (h : gs ≠ []) :
    renderComps (g :: gs) = g ++ '/' :: renderComps gs := by
  cases gs with
  | nil => exact absurd rfl h
  | cons y z => simp [renderComps, List.intercalate, List.intersperse_cons_cons]

theorem renderComps_append (A B : List (List Char)) (hA : A ≠ []) (hB : B ≠ []) :
    renderComps (A ++ B) = renderComps A ++ '/' :: renderComps B := by
  induction A with
  | nil => exact absurd rfl hA
  | cons g gs ih =>
    cases gs with
    | nil =>
      rw [List.singleton_append, renderComps_cons g B hB]
      simp [renderComps, List.intercalate]
    | cons g2 gs2 =>
      have h2 : (g2 :: gs2 : List (List Char)) ≠ [] := by simp
      rw [List.cons_append, renderComps_cons g ((g2 :: gs2) ++ B) (by simp),
          ih h2, renderComps_cons g (g2 :: gs2) h2]
      simp

theorem renderComps_splitSlash (cs : List Char) : renderComps (splitSlash cs) = cs := by
  induction cs with
  | nil => simp [splitSlash, renderComps, List.intercalate]
  | cons c cs ih =>
    by_cases hc : c = '/'
    · subst hc
      rw [splitSlash, if_pos rfl, renderComps_cons [] (splitSlash cs) (splitSlash_ne_nil cs), ih]
      simp
    · rw [splitSlash, if_neg hc]
      cases hsp : splitSlash cs with
      | nil => exact absurd hsp (splitSlash_ne_nil cs)
      | cons g gs =>
        rw [hsp] at ih
        cases gs with
        | nil =>
          rw [consHead]
          simp only [renderComps, List.intercalate] at ih ⊢
          simp at ih ⊢
          rw [ih]
        | cons g2 gs2 =>
          rw [consHead, renderComps_cons (c :: g) (g2 :: gs2) (by simp)]
          rw [renderComps_cons g (g2 :: gs2) (by simp)] at ih
          rw [List.cons_append, ih]

theorem fsFind_fsSet_self (fs : Fs) (p : String) (n : FsNode) :
    fsFind (fsSet fs p n) p = some n := by
  induction fs with
  | nil => simp [fsSet, fsFind]
  | cons hd tl ih =>
    obtain ⟨q, m⟩ := hd
    by_cases hq : q = p
    · subst hq
      simp [fsSet, fsFind]
    · rw [fsSet, if_neg hq, fsFind, if_neg hq, ih]

theorem fsFind_fsSet_ne (fs : Fs) (p : String) (n : FsNode) (q : String) (h : q ≠ p) :
    fsFind (fsSet fs p n) q = fsFind fs q := by
  have hpq : ¬ p = q := fun hc => h hc.symm
  induction fs with
  | nil => simp [fsSet, fsFind, hpq]
  | cons hd tl ih =>
    obtain ⟨r, m⟩ := hd
    by_cases hr : r = p
    · subst hr
      simp [fsSet, fsFind, hpq]
    · rw [fsSet, if_neg hr, fsFind, fsFind, ih]

theorem prefOrSelf_isPrefix (p t : List Char) (h : prefOrSelf p t) : p <+: t := by
  rcases h with heq | ⟨r, hr⟩
  · exact heq ▸ List.prefix_refl p
  · exact ⟨'/' :: r, hr.symm⟩

theorem prefOrSelf_trans (a b c : List Char) (h1 : prefOrSelf a b) (h2 : prefOrSelf b c) :
    prefOrSelf a c := by
  rcases h1 with heq1 | ⟨r1, hr1⟩
  · exact heq1 ▸ h2
  · rcases h2 with heq2 | ⟨r2, hr2⟩
    · exact Or.inr ⟨r1, heq2 ▸ hr1⟩
    · exact Or.inr ⟨r1 ++ '/' :: r2, by rw [hr2, hr1]; simp⟩

theorem pref_of_prefOrSelf (w t P : List Char) (hpos : prefOrSelf w t) (hPt : P <+: t)
    (hnanc : ¬ SlashAnc w P) : P <+: w := by
  have hwt : w <+: t := prefOrSelf_isPrefix w t hpos
  rcases List.prefix_or_prefix_of_prefix hPt hwt with hPw | hwP
  · exact hPw
  · rcases hwP with ⟨d, hd⟩
    cases d with
    | nil => rw [List.append_nil] at hd; exact hd ▸ List.prefix_refl w
    | cons d0 d1 =>
      rcases hpos with heq | ⟨r, hr⟩
      · exact heq ▸ hPt
      · rcases hPt with ⟨s, hs⟩
        rw [← hd, hr, List.append_assoc] at hs
        have htail : d0 :: d1 ++ s = '/' :: r := List.append_cancel_left hs
        have hd0 : d0 = '/' := by
          have := congrArg (fun l => List.head? l) htail
          simpa using this
        exact absurd ⟨d1, by rw [← hd, hd0]⟩ hnanc

theorem slashAnc_length_lt (q t : List Char) (h : SlashAnc q t) : q.length < t.length := by
  rcases h with ⟨r, hr⟩
  rw [hr]
  simp

theorem slashAnc_of_getElem (P : List Char) (n : Nat) (hn : n < P.length)
    (hget : P[n]? = some '/') : SlashAnc (P.take n) P := by
  refine ⟨P.drop (n + 1), ?_⟩
  have hdrop : P.drop n = P[n] :: P.drop (n + 1) := List.drop_eq_getElem_cons hn
  have hPn : P[n] = '/' := by
    have := List.getElem?_eq_getElem hn
    rw [hget] at this
    exact (Option.some.injEq _ _).mp this.symm
  calc P = P.take n ++ P.drop n := (List.take_append_drop n P).symm
    _ = P.take n ++ '/' :: P.drop (n + 1) := by rw [hdrop, hPn]

theorem ancInv_apply (P : List Char) (fs : Fs) (hinv : AncInv P fs) (q : List Char)
    (hanc : SlashAnc q P) : ancestorOk fs q = true := by
  rcases hanc with ⟨rest, hr⟩
  have hn : q.length < P.length := by rw [hr]; simp
  have hget : P[q.length]? = some '/' := by
    rw [hr, List.getElem?_append_right (le_refl q.length)]
    simp
  have htake : P.take q.length = q := by
    rw [hr, List.take_left]
  have := hinv q.length hn hget
  rwa [htake] at this

theorem ancInv_fsSet_long (P : List Char) (fs : Fs) (p : String) (n : FsNode)
    (hinv : AncInv P fs) (hlen : P.length ≤ p.toList.length) :
    AncInv P (fsSet fs p n) := by
  intro m hm hget
  have hne : (P.take m).asString ≠ p := by
    intro hcon
    have := congrArg String.toList hcon
    rw [List.toList_asString] at this
    have hlen2 : (P.take m).length = p.toList.length := by rw [this]
    rw [List.length_take] at hlen2
    omega
  have := hinv m hm hget
  unfold ancestorOk at this ⊢
  rwa [fsFind_fsSet_ne fs p n _ hne]

theorem splitSlash_no_slash (cs : List Char) (h : '/' ∉ cs) : splitSlash cs = [cs] := by
  induction cs with
  | nil => rfl
  | cons c cs ih =>
    simp only [List.mem_cons, not_or] at h
    rw [splitSlash, if_neg (fun hc => h.1 hc.symm), ih h.2, consHead]

theorem splitSlash_append_slash (xs ys : List Char) (h : '/' ∉ xs) :
    splitSlash (xs ++ '/' :: ys) = xs :: splitSlash ys := by
  induction xs with
  | nil => simp [splitSlash]
  | cons c cs ih =>
    simp only [List.mem_cons, not_or] at h
    rw [List.cons_append, splitSlash, if_neg (fun hc => h.1 hc.symm), ih h.2, consHead]

theorem mkdirAllWalk_cons (umask perm : Nat) (done : List (List Char)) (fs : Fs)
    (writes : List String) (c : List Char) (cs : List (List Char)) :
    mkdirAllWalk umask perm done fs writes (c :: cs) =
      if alwaysThere (renderComps (done ++ [c])) then
        mkdirAllWalk umask perm (done ++ [c]) fs writes cs
      else
        match fsFind fs (renderComps (done ++ [c])).asString with
        | some (.dir _) => mkdirAllWalk umask perm (done ++ [c]) fs writes cs
        | some _ =>
            (fs, writes.reverse, some (.mkdirFailure (renderComps (done ++ [c])).asString))
        | none =>
            mkdirAllWalk umask perm (done ++ [c])
              (fsSet fs (renderComps (done ++ [c])).asString
                (.dir (permApplyUmask perm umask)))
              ((renderComps (done ++ [c])).asString :: writes) cs := by
  rw [mkdirAllWalk]

theorem mkdirAllWalk_sound (umask perm : Nat) (P : List Char) (F : List (List Char)) :
    ∀ (cs done : List (List Char)) (fs : Fs) (writes : List String),
      done ++ cs = F →
      AncInv P fs →
      (∀ w, w ∈ (mkdirAllWalk umask perm done fs writes cs).2.1 →
          w ∈ writes ∨
            (prefOrSelf w.toList (renderComps F) ∧ ¬ SlashAnc w.toList P)) ∧
      AncInv P (mkdirAllWalk umask perm done fs writes cs).1 ∧
      (∀ q : String, (renderComps F).length < q.toList.length →
          fsFind (mkdirAllWalk umask perm done fs writes cs).1 q = fsFind fs q) := by
  intro cs
  induction cs with
  | nil =>
    intro done fs writes _hF hinv
    rw [mkdirAllWalk]
    exact ⟨fun w hw => Or.inl (List.mem_reverse.mp hw), hinv, fun q _ => rfl⟩
  | cons c cs ih =>
    intro done fs writes hF hinv
    have hptoList : (renderComps (done ++ [c])).asString.toList = renderComps (done ++ [c]) :=
      List.toList_asString _
    have hposF : prefOrSelf (renderComps (done ++ [c])) (renderComps F) := by
      cases cs with
      | nil =>
        left
        rw [← hF]
      | cons d ds =>
        right
        rw [← hF, show done ++ c :: d :: ds = (done ++ [c]) ++ (d :: ds) by simp,
          renderComps_append (done ++ [c]) (d :: ds) (by simp) (by simp)]
        exact ⟨renderComps (d :: ds), rfl⟩
    have hlenF : (renderComps (done ++ [c])).length ≤ (renderComps F).length := by
      rcases hposF with heq | hanc
      · rw [heq]
      · exact Nat.le_of_lt (slashAnc_length_lt _ _ hanc)
    have hF2 : (done ++ [c]) ++ cs = F := by rw [← hF]; simp
    rw [mkdirAllWalk_cons]
    by_cases halways : alwaysThere (renderComps (done ++ [c]))
    · rw [if_pos halways]
      exact ih (done ++ [c]) fs writes hF2 hinv
    · rw [if_neg halways]
      cases hfind : fsFind fs (renderComps (done ++ [c])).asString with
      | none =>
        have hnotanc : ¬ SlashAnc (renderComps (done ++ [c])) P := by
          intro hanc
          have := ancInv_apply P fs hinv _ hanc
          unfold ancestorOk at this
          rw [hfind] at this
          simp [halways] at this
        have hinv2 : AncInv P (fsSet fs (renderComps (done ++ [c])).asString
            (.dir (permApplyUmask perm umask))) := by
          intro m1 hm1 hget1
          have hSA : SlashAnc (P.take m1) P := slashAnc_of_getElem P m1 hm1 hget1
          have hne : (P.take m1).asString ≠ (renderComps (done ++ [c])).asString := by
            intro hcon
            apply hnotanc
            have h4 := congrArg String.toList hcon
            rw [List.toList_asString, List.toList_asString] at h4
            exact h4 ▸ hSA
          have h5 := hinv m1 hm1 hget1
          unfold ancestorOk at h5 ⊢
          rw [fsFind_fsSet_ne fs _ _ _ hne]
          exact h5
        obtain ⟨ha, hb, hc2⟩ := ih (done ++ [c])
          (fsSet fs (renderComps (done ++ [c])).asString (.dir (permApplyUmask perm umask)))
          ((renderComps (done ++ [c])).asString :: writes) hF2 hinv2
        refine ⟨?_, hb, ?_⟩
        · intro w hw
          rcases ha w hw with hmem | hgood
          · rcases List.mem_cons.mp hmem with heqw | hmem2
            · right
              subst heqw
              rw [hptoList]
              exact ⟨hposF, hnotanc⟩
            · exact Or.inl hmem2
          · exact Or.inr hgood
        · intro q hq
          rw [hc2 q hq, fsFind_fsSet_ne fs _ _ q ?_]
          intro hcon
          have h4 := congrArg String.toList hcon
          rw [hptoList] at h4
          have := hq
          rw [h4] at this
          omega
      | some nd =>
        cases nd with
        | dir m0 => exact ih (done ++ [c]) fs writes hF2 hinv
        | file c0 m0 => exact ⟨fun w hw => Or.inl (List.mem_reverse.mp hw), hinv, fun q _ => rfl⟩
        | symlink t0 => exact ⟨fun w hw => Or.inl (List.mem_reverse.mp hw), hinv, fun q _ => rfl⟩

theorem extractEntry_writes (umask : Nat) (imgRoot : String) (fs : Fs) (e : TarEntry)
    (hinv : AncInv imgRoot.toList fs) :
    (∀ w ∈ (extractEntry umask imgRoot fs e).2.1, stringsHasPref w imgRoot = true) ∧
    AncInv imgRoot.toList (extractEntry umask imgRoot fs e).1 := by
  by_cases hskip : extractSkips imgRoot e.name = true
  · rw [extractEntry, if_pos hskip]
    exact ⟨by simp, hinv⟩
  · have hskipf : extractSkips imgRoot e.name = false := by
      cases h : extractSkips imgRoot e.name
      · rfl
      · exact absurd h hskip
    have hP : imgRoot.toList <+: (extractTargetPath imgRoot e.name).toList := by
      rw [extractSkips, Bool.not_eq_false'] at hskipf
      exact List.isPrefixOf_iff_prefix.mp hskipf
    have hPlen : imgRoot.toList.length ≤ (extractTargetPath imgRoot e.name).toList.length :=
      hP.length_le
    have hWrap : ∀ w : String,
        prefOrSelf w.toList (extractTargetPath imgRoot e.name).toList →
        ¬ SlashAnc w.toList imgRoot.toList → stringsHasPref w imgRoot = true := by
      intro w h1 h2
      rw [stringsHasPref, List.isPrefixOf_iff_prefix]
      exact pref_of_prefOrSelf w.toList _ _ h1 hP h2
    have hTargetGood : stringsHasPref (extractTargetPath imgRoot e.name) imgRoot = true := by
      rw [stringsHasPref, List.isPrefixOf_iff_prefix]
      exact hP
    rw [extractEntry, if_neg hskip]
    by_cases h5 : e.typeflag = '5'
    · rw [if_pos h5]
      obtain ⟨ha, hb, _⟩ := mkdirAllWalk_sound umask e.mode imgRoot.toList
        (splitSlash (extractTargetPath imgRoot e.name).toList)
        (splitSlash (extractTargetPath imgRoot e.name).toList) [] fs [] rfl hinv
      refine ⟨?_, hb⟩
      intro w hw
      rcases ha w hw with hmem | ⟨hpos, hnanc⟩
      · exact absurd hmem (List.not_mem_nil w)
      · rw [renderComps_splitSlash] at hpos
        exact hWrap w hpos hnanc
    · rw [if_neg h5]
      by_cases h0 : e.typeflag = '0'
      · rw [if_pos h0]
        have hbridge : ∀ w : String,
            w ∈ (mkdirAllWalk umask 0o755 [] fs []
              ((splitSlash (extractTargetPath imgRoot e.name).toList).dropLast)).2.1 →
              stringsHasPref w imgRoot = true := by
          intro w hw
          obtain ⟨ha, _, _⟩ := mkdirAllWalk_sound umask 0o755 imgRoot.toList
            ((splitSlash (extractTargetPath imgRoot e.name).toList).dropLast)
            ((splitSlash (extractTargetPath imgRoot e.name).toList).dropLast) [] fs [] rfl hinv
          rcases ha w hw with hmem | ⟨hpos, hnanc⟩
          · exact absurd hmem (List.not_mem_nil w)
          · refine hWrap w ?_ hnanc
            by_cases hFz : (splitSlash (extractTargetPath imgRoot e.name).toList).dropLast = []
            · rw [hFz] at hw
              rw [mkdirAllWalk] at hw
              exact absurd hw (by simp)
            · refine prefOrSelf_trans _ _ _ hpos ?_
              have hsplit := List.dropLast_append_getLast
                (splitSlash_ne_nil (extractTargetPath imgRoot e.name).toList)
              have hrender : renderComps (splitSlash (extractTargetPath imgRoot e.name).toList) =
                  renderComps ((splitSlash (extractTargetPath imgRoot e.name).toList).dropLast) ++
                    '/' :: renderComps
                      [(splitSlash (extractTargetPath imgRoot e.name).toList).getLast
                        (splitSlash_ne_nil _)] := by
                conv_lhs => rw [← hsplit]
                exact renderComps_append _ _ hFz (by simp)
              right
              exact ⟨renderComps [(splitSlash (extractTargetPath imgRoot e.name).toList).getLast
                (splitSlash_ne_nil _)], (renderComps_splitSlash _).symm.trans hrender⟩
        have hwalkinv : AncInv imgRoot.toList (mkdirAllWalk umask 0o755 [] fs []
            ((splitSlash (extractTargetPath imgRoot e.name).toList).dropLast)).1 :=
          (mkdirAllWalk_sound umask 0o755 imgRoot.toList _ _ [] fs [] rfl hinv).2.1
        cases hwalk : mkdirAllWalk umask 0o755 [] fs []
            ((splitSlash (extractTargetPath imgRoot e.name).toList).dropLast) with
        | mk fs1 rest1 =>
          obtain ⟨w1, r1⟩ := rest1
          rw [hwalk] at hbridge hwalkinv
          cases r1 with
          | some err =>
            dsimp only
            exact ⟨fun w hw => hbridge w hw, hwalkinv⟩
          | none =>
            dsimp only
            cases hfind : fsFind fs1 (extractTargetPath imgRoot e.name) with
            | none =>
              refine ⟨?_, ancInv_fsSet_long _ _ _ _ hwalkinv hPlen⟩
              intro w hw
              rcases List.mem_append.mp hw with hw1 | hw2
              · exact hbridge w hw1
              · rw [List.mem_singleton.mp hw2]
                exact hTargetGood
            | some nd =>
              cases nd with
              | dir m0 => exact ⟨fun w hw => hbridge w hw, hwalkinv⟩
              | symlink t0 => exact ⟨fun w hw => hbridge w hw, hwalkinv⟩
              | file c0 m0 =>
                refine ⟨?_, ancInv_fsSet_long _ _ _ _ hwalkinv hPlen⟩
                intro w hw
                rcases List.mem_append.mp hw with hw1 | hw2
                · exact hbridge w hw1
                · rw [List.mem_singleton.mp hw2]
                  exact hTargetGood
      · rw [if_neg h0]
        by_cases h2 : e.typeflag = '2'
        · rw [if_pos h2]
          cases hfind : fsFind fs (extractTargetPath imgRoot e.name) with
          | some nd => exact ⟨by simp, hinv⟩
          | none =>
            refine ⟨?_, ancInv_fsSet_long _ _ _ _ hinv hPlen⟩
            intro w hw
            rw [List.mem_singleton.mp hw]
            exact hTargetGood
        · rw [if_neg h2]
          by_cases h1 : e.typeflag = '1'
          · rw [if_pos h1]
            cases hfindL : fsFind fs (extractTargetPath imgRoot e.linkname) with
            | some nd =>
              cases hfind : fsFind fs (extractTargetPath imgRoot e.name) with
              | some nd2 => exact ⟨by simp, hinv⟩
              | none =>
                refine ⟨?_, ancInv_fsSet_long _ _ _ _ hinv hPlen⟩
                intro w hw
                rw [List.mem_singleton.mp hw]
                exact hTargetGood
            | none =>
              cases hfind : fsFind fs (extractTargetPath imgRoot e.name) with
              | some nd2 => exact ⟨by simp, hinv⟩
              | none => exact ⟨by simp, hinv⟩
          · rw [if_neg h1]
            exact ⟨by simp, hinv⟩

theorem extractLayer_writes (umask : Nat) (imgRoot : String) :
    ∀ (entries : List TarEntry) (fs : Fs), AncInv imgRoot.toList fs →
      (∀ w ∈ (extractLayer umask imgRoot fs entries).2.1, stringsHasPref w imgRoot = true) ∧
      AncInv imgRoot.toList (extractLayer umask imgRoot fs entries).1 := by
  intro entries
  induction entries with
  | nil =>
    intro fs hinv
    rw [extractLayer]
    exact ⟨by simp, hinv⟩
  | cons e rest ih =>
    intro fs hinv
    obtain ⟨ha, hb⟩ := extractEntry_writes umask imgRoot fs e hinv
    rw [extractLayer]
    cases hE : extractEntry umask imgRoot fs e with
    | mk fs1 rest1 =>
      obtain ⟨w1, r1⟩ := rest1
      rw [hE] at ha hb
      cases r1 with
      | some err =>
        dsimp only
        exact ⟨fun w hw => ha w hw, hb⟩
      | none =>
        dsimp only
        obtain ⟨hc, hd⟩ := ih fs1 hb
        cases hR : extractLayer umask imgRoot fs1 rest with
        | mk fs2 rest2 =>
          obtain ⟨w2, r2⟩ := rest2
          rw [hR] at hc hd
          dsimp only
          refine ⟨?_, hd⟩
          intro w hw
          rcases List.mem_append.mp hw with hw1 | hw2
          · exact ha w hw1
          · exact hc w hw2

/-- C2 counterexample: the tar entry `../rootfs-evil/passwd` joins to a
path that does not lie under the rootfs directory, yet the
`strings.HasPrefix` check does not skip it, and extraction writes the
file outside rootfs. -/
theorem traversal_entry_written_outside_rootfs :
    extractSkips (clientImageRoot "/home/user" "alpine") "../rootfs-evil/passwd" = false ∧
    specLiesUnder
      (extractTargetPath (clientImageRoot "/home/user" "alpine") "../rootfs-evil/passwd")
      (clientImageRoot "/home/user" "alpine") = false ∧
    fsFind (extractEntry 0 (clientImageRoot "/home/user" "alpine")
        [(clientImageRoot "/home/user" "alpine", FsNode.dir 0o755)]
        ⟨"../rootfs-evil/passwd", '0', 0o644, "", [65]⟩).1
      "/home/user/.local/share/gocker/images/alpine/rootfs-evil/passwd" =
      some (FsNode.file [65] 0o644) ∧
    specLiesUnder "/home/user/.local/share/gocker/images/alpine/rootfs-evil/passwd"
      (clientImageRoot "/home/user" "alpine") = false := by
  decide

/-- C2 (amended): `extractLayer` skips exactly the entries whose joined
path fails the `strings.HasPrefix` test against the rootfs path, so every
path it writes begins, as a plain string, with the rootfs path. (This
does not imply the path lies under the rootfs directory: a sibling
whose name extends `rootfs` passes the check.) The hypothesis states that
every slash-ancestor of the rootfs path already exists as a directory, as
`mkdirRootfs` guarantees. -/
theorem extraction_writes_start_with_rootfs_path (umask : Nat) (imgRoot : String)
    (fs : Fs) (entries : List TarEntry) (hinv : AncInv imgRoot.toList fs) :
    ∀ w ∈ (extractLayer umask imgRoot fs entries).2.1, stringsHasPref w imgRoot = true :=
  (extractLayer_writes umask imgRoot entries fs hinv).1

/-- Closed instance of the amended C2 theorem on a layer with a
directory, a regular file and a traversal entry. -/
theorem extraction_writes_start_with_rootfs_path_witness :
    AncInv ("/img/rootfs" : String).toList
        [("/img", FsNode.dir 0o755), ("/img/rootfs", FsNode.dir 0o755)] ∧
    ∀ w ∈ (extractLayer 0 "/img/rootfs"
        [("/img", FsNode.dir 0o755), ("/img/rootfs", FsNode.dir 0o755)]
        [⟨"etc", '5', 0o755, "", []⟩, ⟨"etc/os-release", '0', 0o644, "", [73, 68]⟩,
          ⟨"../../etc/passwd", '0', 0o644, "", [88]⟩]).2.1,
      stringsHasPref w "/img/rootfs" = true :=
  ⟨by decide, extraction_writes_start_with_rootfs_path 0 "/img/rootfs" _ _ (by decide)⟩

/-- C6 counterexample: extracting a regular-file entry over an existing
file from an earlier layer leaves the old permission bits and the old
content past the new length, because the file is opened
`O_CREATE|O_RDWR` without truncation and the mode only applies at
creation. -/
theorem existing_file_keeps_mode_and_tail :
    (extractEntry 0 "/img/rootfs"
        [("/img", FsNode.dir 0o755), ("/img/rootfs", FsNode.dir 0o755),
          ("/img/rootfs/a", FsNode.file [1, 2, 3, 4] 0o600)]
        ⟨"a", '0', 0o755, "", [9, 9]⟩).2.2 = none ∧
    fsFind (extractEntry 0 "/img/rootfs"
        [("/img", FsNode.dir 0o755), ("/img/rootfs", FsNode.dir 0o755),
          ("/img/rootfs/a", FsNode.file [1, 2, 3, 4] 0o600)]
        ⟨"a", '0', 0o755, "", [9, 9]⟩).1 "/img/rootfs/a" =
      some (FsNode.file [9, 9, 3, 4] 0o600) ∧
    ¬ fsFind (extractEntry 0 "/img/rootfs"
        [("/img", FsNode.dir 0o755), ("/img/rootfs", FsNode.dir 0o755),
          ("/img/rootfs/a", FsNode.file [1, 2, 3, 4] 0o600)]
        ⟨"a", '0', 0o755, "", [9, 9]⟩).1 "/img/rootfs/a" =
      some (FsNode.file [9, 9] (0o755 &&& 0o7777)) := by
  decide

/-- C6 (amended): for a regular-file entry that passes the traversal
check and whose extraction step succeeds, a fresh target is created with
content `C` and permission bits `(M & 0o777) & ~umask`; an existing
regular file keeps its permission bits, and its content becomes `C`
followed by the old content past `|C|`. -/
theorem regular_file_entry_semantics (umask : Nat) (imgRoot : String) (fs : Fs) (e : TarEntry)
    (hflag : e.typeflag = '0')
    (hskip : extractSkips imgRoot e.name = false)
    (hinv : AncInv imgRoot.toList fs)
    (hok : (extractEntry umask imgRoot fs e).2.2 = none) :
    (fsFind fs (extractTargetPath imgRoot e.name) = none →
      fsFind (extractEntry umask imgRoot fs e).1 (extractTargetPath imgRoot e.name) =
        some (.file e.content (permApplyUmask e.mode umask))) ∧
    (∀ oldC oldM, fsFind fs (extractTargetPath imgRoot e.name) = some (.file oldC oldM) →
      fsFind (extractEntry umask imgRoot fs e).1 (extractTargetPath imgRoot e.name) =
        some (.file (e.content ++ oldC.drop e.content.length) oldM)) := by
  have hskipn : ¬ extractSkips imgRoot e.name = true := by simp [hskip]
  have h5 : ¬ e.typeflag = '5' := by rw [hflag]; decide
  rw [extractEntry, if_neg hskipn, if_neg h5, if_pos hflag] at hok ⊢
  cases hwalk : mkdirAllWalk umask 0o755 [] fs []
      ((splitSlash (extractTargetPath imgRoot e.name).toList).dropLast) with
  | mk fs1 rest1 =>
    obtain ⟨w1, r1⟩ := rest1
    rw [hwalk] at hok
    cases r1 with
    | some err => simp at hok
    | none =>
      dsimp only at hok ⊢
      have hf1 : fsFind fs1 (extractTargetPath imgRoot e.name) =
          fsFind fs (extractTargetPath imgRoot e.name) := by
        by_cases hFz : (splitSlash (extractTargetPath imgRoot e.name).toList).dropLast = []
        · rw [hFz, mkdirAllWalk] at hwalk
          have : fs = fs1 := congrArg Prod.fst hwalk
          rw [this]
        · obtain ⟨_, _, hc⟩ := mkdirAllWalk_sound umask 0o755 imgRoot.toList
            ((splitSlash (extractTargetPath imgRoot e.name).toList).dropLast)
            ((splitSlash (extractTargetPath imgRoot e.name).toList).dropLast) [] fs [] rfl hinv
          rw [hwalk] at hc
          apply hc
          have hsplit := List.dropLast_append_getLast
            (splitSlash_ne_nil (extractTargetPath imgRoot e.name).toList)
          have hrender : (extractTargetPath imgRoot e.name).toList =
              renderComps ((splitSlash (extractTargetPath imgRoot e.name).toList).dropLast) ++
                '/' :: renderComps
                  [(splitSlash (extractTargetPath imgRoot e.name).toList).getLast
                    (splitSlash_ne_nil _)] := by
            conv_lhs => rw [← renderComps_splitSlash (extractTargetPath imgRoot e.name).toList]
            conv_lhs => rw [← hsplit]
            exact renderComps_append _ _ hFz (by simp)
          conv_rhs => rw [hrender]
          simp only [List.length_append, List.length_cons]
          omega
      rw [hf1] at hok ⊢
      constructor
      · intro hnone
        rw [hnone] at hok ⊢
        dsimp only
        exact fsFind_fsSet_self fs1 _ _
      · intro oldC oldM hsome
        rw [hsome] at hok ⊢
        dsimp only
        exact fsFind_fsSet_self fs1 _ _

/-- Closed instance of the amended C6 theorem: fresh creation and
overwrite of an existing file, at concrete inputs. -/
theorem regular_file_entry_semantics_witness :
    (extractSkips "/img/rootfs" "a" = false ∧
      AncInv ("/img/rootfs" : String).toList
        [("/img", FsNode.dir 0o755), ("/img/rootfs", FsNode.dir 0o755)] ∧
      (extractEntry 0 "/img/rootfs"
        [("/img", FsNode.dir 0o755), ("/img/rootfs", FsNode.dir 0o755)]
        ⟨"a", '0', 0o640, "", [7]⟩).2.2 = none) ∧
    (fsFind [("/img", FsNode.dir 0o755), ("/img/rootfs", FsNode.dir 0o755)]
        (extractTargetPath "/img/rootfs" "a") = none →
      fsFind (extractEntry 0 "/img/rootfs"
          [("/img", FsNode.dir 0o755), ("/img/rootfs", FsNode.dir 0o755)]
          ⟨"a", '0', 0o640, "", [7]⟩).1 (extractTargetPath "/img/rootfs" "a") =
        some (.file [7] (permApplyUmask 0o640 0))) :=
  ⟨⟨by decide, by decide, by decide⟩,
    (regular_file_entry_semantics 0 "/img/rootfs"
      [("/img", FsNode.dir 0o755), ("/img/rootfs", FsNode.dir 0o755)]
      ⟨"a", '0', 0o640, "", [7]⟩ rfl (by decide) (by decide) (by decide)).1⟩

theorem cleanChars_images_img (img : List Char) (h : '/' ∉ img) (h1 : img ≠ [])
    (h2 : img ≠ ['.']) (h3 : img ≠ ['.', '.']) :
    cleanChars (".local/share/gocker/images/".toList ++ '/' :: img) =
      ".local/share/gocker/images/".toList ++ img := by
  have hs : splitSlash img = [img] := splitSlash_no_slash img h
  simp [cleanChars, splitSlash, consHead, cleanComps, isRooted, hs, h1, h2, h3, String.toList,
    List.intercalate]

theorem cleanChars_images_img_rootfs (img : List Char) (h : '/' ∉ img) (h1 : img ≠ [])
    (h2 : img ≠ ['.']) (h3 : img ≠ ['.', '.']) :
    cleanChars (".local/share/gocker/images/".toList ++ img ++ '/' :: "rootfs".toList) =
      ".local/share/gocker/images/".toList ++ img ++ "/rootfs".toList := by
  have hs : splitSlash (img ++ ['/', 'r', 'o', 'o', 't', 'f', 's']) =
      [img, ['r', 'o', 'o', 't', 'f', 's']] :=
    (splitSlash_append_slash img ['r', 'o', 'o', 't', 'f', 's'] h).trans (by
      rw [splitSlash_no_slash ['r', 'o', 'o', 't', 'f', 's'] (by decide)])
  simp [cleanChars, splitSlash, consHead, cleanComps, isRooted, hs, h1, h2, h3, String.toList,
    List.intercalate]

theorem cleanChars_images_slash_img_rootfs (img : List Char) (h : '/' ∉ img) (h1 : img ≠ [])
    (h2 : img ≠ ['.']) (h3 : img ≠ ['.', '.']) :
    cleanChars (".local/share/gocker/images/".toList ++
        '/' :: (img ++ '/' :: "rootfs".toList)) =
      ".local/share/gocker/images/".toList ++ img ++ "/rootfs".toList := by
  have hs : splitSlash (img ++ ['/', 'r', 'o', 'o', 't', 'f', 's']) =
      [img, ['r', 'o', 'o', 't', 'f', 's']] :=
    (splitSlash_append_slash img ['r', 'o', 'o', 't', 'f', 's'] h).trans (by
      rw [splitSlash_no_slash ['r', 'o', 'o', 't', 'f', 's'] (by decide)])
  simp [cleanChars, splitSlash, consHead, cleanComps, isRooted, hs, h1, h2, h3, String.toList,
    List.intercalate]

/-- C10: with `HOME` unset or empty, `NewClient` and `NewContainer` derive
the relative image store paths `.local/share/gocker/images/<image>` (and
`<...>/rootfs`) under the current directory; path derivation never fails on
a missing `HOME`. -/
theorem empty_home_gives_relative_store_paths (img : String)
    (h : simpleImageName img = true) :
    clientImagePath "" img = ".local/share/gocker/images/" ++ img ∧
    clientImageRoot "" img = ".local/share/gocker/images/" ++ img ++ "/rootfs" ∧
    containerImgRoot "" img = ".local/share/gocker/images/" ++ img ++ "/rootfs" ∧
    isRooted (clientImagePath "" img).toList = false := by
  rw [simpleImageName, decide_eq_true_iff] at h
  obtain ⟨h1, hsl, h2, h3⟩ := h
  have key1 : clientImagePath "" img = ".local/share/gocker/images/" ++ img := by
    have e := cleanChars_images_img img.toList hsl h1 h2 h3
    have estep : clientImagePath "" img =
        (cleanChars (".local/share/gocker/images/".toList ++ '/' :: img.toList)).asString := by
      simp [clientImagePath, goJoin, RelativeImagesPath, joinCharsWithSlash]
      intro _ hcon _
      exact absurd hcon (by decide)
    rw [estep, e]
    apply String.ext
    simp [List.asString, String.toList]
  have hne : (".local/share/gocker/images/" ++ img).isEmpty = false := by
    rw [Bool.eq_false_iff]
    intro hcon
    rw [String.isEmpty_iff] at hcon
    have := congrArg String.data hcon
    simp [String.data_append] at this
  refine ⟨key1, ?_, ?_, ?_⟩
  · have estep : clientImageRoot "" img =
        (cleanChars (".local/share/gocker/images/".toList ++ img.toList ++
          '/' :: "rootfs".toList)).asString := by
      rw [clientImageRoot, key1, goJoin]
      simp [joinCharsWithSlash, hne]
    rw [estep, cleanChars_images_img_rootfs img.toList hsl h1 h2 h3]
    apply String.ext
    simp [List.asString, String.toList]
  · have estep : containerImgRoot "" img =
        (cleanChars (".local/share/gocker/images/".toList ++
          '/' :: (img.toList ++ '/' :: "rootfs".toList))).asString := by
      simp [containerImgRoot, goJoin, RelativeImagesPath, joinCharsWithSlash]
      intro _ hcon _ _
      exact absurd hcon (by decide)
    rw [estep, cleanChars_images_slash_img_rootfs img.toList hsl h1 h2 h3]
    apply String.ext
    simp [List.asString, String.toList]
  · rw [key1]
    have : (".local/share/gocker/images/" ++ img).toList =
        '.' :: ("local/share/gocker/images/".toList ++ img.toList) := rfl
    rw [this, isRooted]
    decide

/-! ## Claims C1, C3, C4, C5, C7, C8, C9 -/

theorem downloadAndExtractImageTrace_length (n : Nat) :
    (downloadAndExtractImageTrace n).length = 4 * n := by
  induction n with
  | zero => rfl
  | succ n ih =>
    rw [downloadAndExtractImageTrace, List.length_append, ih, downloadAndExtractLayerTrace]
    simp
    omega

/-- C1 counterexample: in the trace of two layers, layer 0's digest
verification and body completion come after layer 0's entry extraction,
and layer 0's extraction begins before layer 1's download completes —
refuting both that the digest is verified before extraction and that
extraction starts only after all downloads finish. -/
theorem digest_checked_after_extraction_counterexample :
    ¬ ((downloadAndExtractImageTrace 2).indexOf (LayerEv.verifyDigest 0) <
        (downloadAndExtractImageTrace 2).indexOf (LayerEv.extractEntries 0) ∧
      (downloadAndExtractImageTrace 2).indexOf (LayerEv.bodyReceived 1) <
        (downloadAndExtractImageTrace 2).indexOf (LayerEv.extractEntries 0)) := by
  decide

/-- C1 (amended): layers are processed strictly serially in manifest
order; for each layer the blob request, streaming extraction, body
completion and digest verification happen in that order, so a layer's
digest is verified only after its entries are already extracted, and the
next layer's download starts only after the previous layer is fully
processed. -/
theorem serial_streaming_layer_trace (n j : Nat) (h : j < n) :
    (downloadAndExtractImageTrace n).length = 4 * n ∧
    (downloadAndExtractImageTrace n)[4 * j]? = some (.request j) ∧
    (downloadAndExtractImageTrace n)[4 * j + 1]? = some (.extractEntries j) ∧
    (downloadAndExtractImageTrace n)[4 * j + 2]? = some (.bodyReceived j) ∧
    (downloadAndExtractImageTrace n)[4 * j + 3]? = some (.verifyDigest j) := by
  refine ⟨downloadAndExtractImageTrace_length n, ?_⟩
  induction n with
  | zero => omega
  | succ n ih =>
    by_cases hj : j < n
    · obtain ⟨h1, h2, h3, h4⟩ := ih hj
      have hlen := downloadAndExtractImageTrace_length n
      rw [downloadAndExtractImageTrace]
      rw [List.getElem?_append_left (by omega), List.getElem?_append_left (by omega),
        List.getElem?_append_left (by omega), List.getElem?_append_left (by omega)]
      exact ⟨h1, h2, h3, h4⟩
    · have hjn : j = n := by omega
      subst hjn
      have hlen := downloadAndExtractImageTrace_length j
      rw [downloadAndExtractImageTrace]
      rw [List.getElem?_append_right (by omega), List.getElem?_append_right (by omega),
        List.getElem?_append_right (by omega), List.getElem?_append_right (by omega)]
      rw [hlen]
      have e0 : 4 * j - 4 * j = 0 := by omega
      have e1 : 4 * j + 1 - 4 * j = 1 := by omega
      have e2 : 4 * j + 2 - 4 * j = 2 := by omega
      have e3 : 4 * j + 3 - 4 * j = 3 := by omega
      rw [e0, e1, e2, e3]
      exact ⟨rfl, rfl, rfl, rfl⟩

/-- Closed instance of the amended C1 theorem at two layers. -/
theorem serial_streaming_layer_trace_witness :
    1 < 2 ∧
    ((downloadAndExtractImageTrace 2).length = 4 * 2 ∧
      (downloadAndExtractImageTrace 2)[4 * 1]? = some (.request 1) ∧
      (downloadAndExtractImageTrace 2)[4 * 1 + 1]? = some (.extractEntries 1) ∧
      (downloadAndExtractImageTrace 2)[4 * 1 + 2]? = some (.bodyReceived 1) ∧
      (downloadAndExtractImageTrace 2)[4 * 1 + 3]? = some (.verifyDigest 1)) :=
  ⟨by decide, serial_streaming_layer_trace 2 1 (by decide)⟩

/-- C3: a run whose containerized target exits with code `k` makes
`gocker run` exit with code `k`: the child re-exec's handler propagates
the target's `ExitError` code, the parent observes the child's exit code
through `cmd.Run`, and the driver's handler exits with exactly that
code — regardless of the (discarded) cgroup-setup outcome. -/
theorem run_propagates_target_exit_code (cgroupResult : Option String) (k : Nat)
    (_h : k ≤ 255) : gockerRunExit cgroupResult k = k := by
  by_cases hk : k = 0 <;>
    simp [gockerRunExit, runParentProcess, childProcessExit, runHandlerExit, cmdRunResult, hk]

/-- Closed instance of the C3 theorem at exit code 7. -/
theorem run_propagates_target_exit_code_witness :
    7 ≤ 255 ∧ gockerRunExit none 7 = 7 :=
  ⟨by decide, run_propagates_target_exit_code none 7 (by decide)⟩

/-- C4: pull succeeds although the authentication request failed with
HTTP 500 — `authenticate` discards `SendRequestAndDecode`'s error, keeps
the empty token and returns nil, so authentication failure is not fatal
for the pull call (the claim's propagation does not happen). -/
theorem auth_failure_not_fatal_for_pull :
    authenticate (.badStatus 500) = .ok "" ∧
    (pull
      ⟨.badStatus 500,
        .ok ⟨"application/vnd.docker.distribution.manifest.v2+json", none,
          some ⟨⟨"", 0, "sha256:c"⟩, []⟩⟩,
        "linux", "amd64",
        fun _ => .decodeFailure,
        fun _ => ⟨.ok (), true, none, true⟩,
        .ok ⟨⟨[], "", ""⟩⟩, true⟩
      "/root" "alpine").1 = .ok () := by
  exact ⟨rfl, rfl⟩

/-- C5: errors from `extractLayer` and `setupCgroup` are discarded at
their call sites: a layer whose tar stream has a malformed header but
whose bytes hash to the advertised digest leaves `downloadAndExtractLayer`
— and the whole pull — successful, and a cgroup-setup failure leaves
`gocker run` exiting 0. -/
theorem dropped_tar_and_cgroup_errors :
    downloadAndExtractLayer ⟨.ok (), true, some TarErr.headerFailure, true⟩ = .ok () ∧
    (pull
      ⟨.ok ⟨"tok"⟩,
        .ok ⟨"application/vnd.docker.distribution.manifest.v2+json", none,
          some ⟨⟨"", 0, "sha256:c"⟩, [⟨"", 0, "sha256:l1"⟩]⟩⟩,
        "linux", "amd64",
        fun _ => .decodeFailure,
        fun _ => ⟨.ok (), true, some TarErr.headerFailure, true⟩,
        .ok ⟨⟨[], "", ""⟩⟩, true⟩
      "/root" "alpine").1 = .ok () ∧
    runParentProcess (some "failed to create cgroup v2 path") none = none ∧
    gockerRunExit (some "failed to create cgroup v2 path") 0 = 0 := by
  exact ⟨rfl, rfl, rfl, rfl⟩

/-- C7: on an index Content-Type, `fetchManifest` selects the first
index entry matching the host platform (`List.find?` returns the first
match) and requests that manifest by digest; with no matching entry it
fails with the no-matching-platform error, which fails the whole pull
before any filesystem operation. -/
theorem manifest_index_platform_selection (env : PullEnv) (home imgName : String)
    (body : ManifestBody) (hresp : env.manifestResp = .ok body)
    (hct : body.ctype ∈ indexContentTypes) (idx : ManifestIndex)
    (hdec : body.decodeAsIndex = some idx) :
    (∀ entry, idx.manifests.find? (fun m =>
        m.platform.os == env.hostOS && m.platform.architecture == env.hostArch) = some entry →
      fetchManifest "latest" env.manifestResp env.hostOS env.hostArch env.byDigest =
        ((fetchManifestByDigest env.byDigest entry.digest).1, ["latest", entry.digest])) ∧
    (idx.manifests.find? (fun m =>
        m.platform.os == env.hostOS && m.platform.architecture == env.hostArch) = none →
      (fetchManifest "latest" env.manifestResp env.hostOS env.hostArch env.byDigest).1 =
          .error .noMatchingPlatform ∧
        pull env home imgName = (.error .noMatchingPlatform, [])) := by
  constructor
  · intro entry hfind
    rw [hresp, fetchManifest, if_pos hct, hdec]
    dsimp only
    rw [hfind]
    rfl
  · intro hfind
    have hfm : (fetchManifest "latest" env.manifestResp env.hostOS env.hostArch
        env.byDigest).1 = .error .noMatchingPlatform := by
      rw [hresp, fetchManifest, if_pos hct, hdec]
      dsimp only
      rw [hfind]
    refine ⟨hfm, ?_⟩
    rw [pull, authenticate]
    dsimp only
    rw [hfm]

/-- Closed instance of the C7 theorem on a two-entry index. -/
theorem manifest_index_platform_selection_witness :
    ((⟨"application/vnd.oci.image.index.v1+json",
        some ⟨[⟨"sha256:arm", ⟨"linux", "arm64"⟩⟩, ⟨"sha256:amd", ⟨"linux", "amd64"⟩⟩]⟩,
        none⟩ : ManifestBody).ctype ∈ indexContentTypes) ∧
    (∀ entry,
      (⟨[⟨"sha256:arm", ⟨"linux", "arm64"⟩⟩, ⟨"sha256:amd", ⟨"linux", "amd64"⟩⟩]⟩ :
          ManifestIndex).manifests.find? (fun m =>
        m.platform.os == "linux" && m.platform.architecture == "amd64") = some entry →
      fetchManifest "latest"
          (.ok ⟨"application/vnd.oci.image.index.v1+json",
            some ⟨[⟨"sha256:arm", ⟨"linux", "arm64"⟩⟩, ⟨"sha256:amd", ⟨"linux", "amd64"⟩⟩]⟩,
            none⟩)
          "linux" "amd64" (fun _ => .decodeFailure) =
        ((fetchManifestByDigest (fun _ => .decodeFailure) entry.digest).1,
          ["latest", entry.digest])) :=
  ⟨by decide,
    (manifest_index_platform_selection
      ⟨.ok ⟨"t"⟩,
        .ok ⟨"application/vnd.oci.image.index.v1+json",
          some ⟨[⟨"sha256:arm", ⟨"linux", "arm64"⟩⟩, ⟨"sha256:amd", ⟨"linux", "amd64"⟩⟩]⟩,
          none⟩,
        "linux", "amd64", fun _ => .decodeFailure, fun _ => ⟨.ok (), true, none, true⟩,
        .ok ⟨⟨[], "", ""⟩⟩, true⟩
      "/root" "alpine" _ rfl (by decide) _ rfl).1⟩

/-- C8: if manifest resolution fails (and `authenticate`, which can never
fail, trivially so), `Pull` returns before `mkdirRootfs`, so the image
store directory sees no filesystem operation; the second conjunct shows
the authentication clause is vacuous in the code. -/
theorem store_untouched_before_manifest_resolution (env : PullEnv) (home imgName : String)
    (e : PullErr)
    (hman : (fetchManifest "latest" env.manifestResp env.hostOS env.hostArch
      env.byDigest).1 = .error e) :
    pull env home imgName = (.error e, []) ∧
    ∀ resp : DecOutcome AuthResponse, ∃ t, authenticate resp = .ok t := by
  constructor
  · rw [pull, authenticate]
    dsimp only
    rw [hman]
  · intro resp
    exact ⟨_, rfl⟩

/-- Closed instance of the C8 theorem: a transport failure on the
manifest request leaves the store untouched. -/
theorem store_untouched_before_manifest_resolution_witness :
    (fetchManifest "latest" (ReqOutcome.netFailure) "linux" "amd64"
        (fun _ => DecOutcome.decodeFailure)).1 = .error .network ∧
    pull
        ⟨.ok ⟨"t"⟩, .netFailure, "linux", "amd64", fun _ => .decodeFailure,
          fun _ => ⟨.ok (), true, none, true⟩, .ok ⟨⟨[], "", ""⟩⟩, true⟩
        "/root" "alpine" = (.error .network, []) :=
  ⟨rfl,
    (store_untouched_before_manifest_resolution
      ⟨.ok ⟨"t"⟩, .netFailure, "linux", "amd64", fun _ => .decodeFailure,
        fun _ => ⟨.ok (), true, none, true⟩, .ok ⟨⟨[], "", ""⟩⟩, true⟩
      "/root" "alpine" .network rfl).1⟩

/-- C9 counterexample: the child never replaces its process image with
the target — no exec-replacement event occurs in the child's trace, and
the last thing the child runs is runner code (`unmountProc`), not the
target. -/
theorem child_never_execs_target_counterexample :
    ChildEv.execReplace ∉ runChildTrace ∧
    runChildTrace.getLast? = some ChildEv.unmountProc := by
  decide

/-- C9 (amended): after mounting `/proc` the child starts the target as
a new subprocess (`exec.Command` + `cmd.Run`), waits for it, and then
returns to runner code to unmount `/proc`; the target runs as a
grandchild of gocker rather than replacing the child's process image. -/
theorem child_spawns_target_and_returns_to_runner :
    runChildTrace.indexOf ChildEv.mountProc < runChildTrace.indexOf ChildEv.spawnTarget ∧
    runChildTrace.indexOf ChildEv.spawnTarget < runChildTrace.indexOf ChildEv.waitTarget ∧
    runChildTrace.indexOf ChildEv.waitTarget < runChildTrace.indexOf ChildEv.unmountProc ∧
    ChildEv.unmountProc ∈ runChildTrace ∧
    ChildEv.execReplace ∉ runChildTrace := by
  decide

/-- Closed instance of the `HOME`-empty path theorem at the image name
`alpine`. -/
theorem empty_home_gives_relative_store_paths_witness :
    simpleImageName "alpine" = true ∧
    (clientImagePath "" "alpine" = ".local/share/gocker/images/" ++ "alpine" ∧
      clientImageRoot "" "alpine" = ".local/share/gocker/images/" ++ "alpine" ++ "/rootfs" ∧
      containerImgRoot "" "alpine" = ".local/share/gocker/images/" ++ "alpine" ++ "/rootfs" ∧
      isRooted (clientImagePath "" "alpine").toList = false) :=
  ⟨by decide, empty_home_gives_relative_store_paths "alpine" (by decide)⟩

end Gclone
